import Mathlib

/-!
Shallow embedding of the GoSynthPop core (src/simulatedAnnealing.go and the
parts of src/parallel.go the claims touch) and proofs about it.

Modelling conventions:
* Go `float64` values are modelled as real numbers `ℝ`; arithmetic is exact.
* Go slices are modelled as `List`; an index that Go would reject with a
  runtime panic is modelled with `List.getD` (a default) and the theorems
  carry the length hypotheses under which the Go code does not panic.
* `math/rand.Rand` is modelled abstractly as a pair of streams of draws
  (one for `Intn`, one for `Float64`) with position counters; `Intn n`
  returns the next stream value reduced `% n`.  The concrete generator of
  Go's `math/rand` is irrelevant to every claim below; only which source a
  draw comes from and how draws are consumed matter.
* A Go `panic` is modelled as an explicit `panic` outcome value.
-/

namespace GoSynthPop

noncomputable section

open scoped Classical

/-- Numerical stability constant from src/simulatedAnnealing.go line 12:
`EPSILON = 1e-10`. -/
def EPSILON : ℝ := 1e-10

/-- Metric code `KL_DIVERGENCE = iota` (value 0), src/simulatedAnnealing.go line 15. -/
def KL_DIVERGENCE : ℤ := 0

/-- Metric code `CHI_SQUARED` (value 1), src/simulatedAnnealing.go line 16. -/
def CHI_SQUARED : ℤ := 1

/-- Metric code `EUCLIDEAN` (value 2), src/simulatedAnnealing.go line 17. -/
def EUCLIDEAN : ℤ := 2

/-- Metric code `NORM_EUCLIDEAN` (value 3), src/simulatedAnnealing.go line 18. -/
def NORM_EUCLIDEAN : ℤ := 3

/-- Metric code `MANHATTEN` (value 4), src/simulatedAnnealing.go line 19. -/
def MANHATTEN : ℤ := 4

/-- `KLDivergence` (src/simulatedAnnealing.go lines 57-65): iterates over the
index range of `constraints`, accumulating `(p) * log (p / q)` with
`p = constraints[i] + EPSILON`, `q = testData[i] + EPSILON`.  The Go loop
accumulates left to right; over `ℝ` the grouping is irrelevant and the sum is
written by structural recursion on the two lists (a `testData` shorter than
`constraints` would panic in Go; theorems carry equal-length hypotheses). -/
def KLDivergence : List ℝ → List ℝ → ℝ
  | c :: cs, t :: ts =>
      (c + EPSILON) * Real.log ((c + EPSILON) / (t + EPSILON)) + KLDivergence cs ts
  | _, _ => 0

/-- `ChiSquaredDistance` (src/simulatedAnnealing.go lines 75-84): sum of
`(observed - expected)^2 / expected` with `observed = testData[i] + EPSILON`,
`expected = constraints[i] + EPSILON`. -/
def ChiSquaredDistance : List ℝ → List ℝ → ℝ
  | c :: cs, t :: ts =>
      ((t + EPSILON) - (c + EPSILON)) * ((t + EPSILON) - (c + EPSILON)) / (c + EPSILON)
        + ChiSquaredDistance cs ts
  | _, _ => 0

/-- Sum of squared differences accumulated by `EuclideanDistance`
(src/simulatedAnnealing.go lines 94-101) before the final square root. -/
def euclidSumSq : List ℝ → List ℝ → ℝ
  | c :: cs, t :: ts => (t - c) * (t - c) + euclidSumSq cs ts
  | _, _ => 0

/-- `EuclideanDistance` (src/simulatedAnnealing.go lines 94-101):
`sqrt` of the accumulated sum of squared differences. -/
def EuclideanDistance (constraints testData : List ℝ) : ℝ :=
  Real.sqrt (euclidSumSq constraints testData)

/-- Sum accumulated by `NormalizedEuclideanDistance`
(src/simulatedAnnealing.go lines 115-129) before the final square root:
for `|norm| < EPSILON` the term is `1000 * t * t` when `|t| > EPSILON` and
`0` otherwise, else `((t - c) / c)^2`. -/
def normEuclidSum : List ℝ → List ℝ → ℝ
  | c :: cs, t :: ts =>
      (if |c| < EPSILON then (if |t| > EPSILON then 1000 * t * t else 0)
       else ((t - c) / c) * ((t - c) / c)) + normEuclidSum cs ts
  | _, _ => 0

/-- `NormalizedEuclideanDistance` (src/simulatedAnnealing.go lines 115-129). -/
def NormalizedEuclideanDistance (constraints testData : List ℝ) : ℝ :=
  Real.sqrt (normEuclidSum constraints testData)

/-- `ManhattanDistance` (src/simulatedAnnealing.go lines 139-145): sum of
`|testData[i] - constraints[i]|`. -/
def ManhattanDistance : List ℝ → List ℝ → ℝ
  | c :: cs, t :: ts => |t - c| + ManhattanDistance cs ts
  | _, _ => 0

/-- `Distance` (src/simulatedAnnealing.go lines 31-44): dispatch on the metric
code; the `default` case of the Go `switch` returns `KLDivergence`. -/
def Distance (metric : ℤ) (constraints testData : List ℝ) : ℝ :=
  if metric = CHI_SQUARED then ChiSquaredDistance constraints testData
  else if metric = EUCLIDEAN then EuclideanDistance constraints testData
  else if metric = NORM_EUCLIDEAN then NormalizedEuclideanDistance constraints testData
  else if metric = MANHATTEN then ManhattanDistance constraints testData
  else KLDivergence constraints testData

/-- `MicroData` record (src/main.go lines 19-22): a stable identifier and an
attribute vector. -/
structure MicroData where
  ID : String
  Values : List ℝ

/-- `ConstraintData` record (src/main.go lines 24-28).  `Total` is the
required population count; Go stores it as `float64` and converts with
`int(constraint.Total)` at the draw loop (src/simulatedAnnealing.go line 283);
the embedding keeps the converted natural number. -/
structure ConstraintData where
  ID : String
  Values : List ℝ
  Total : ℕ

/-- `results` record (src/main.go lines 30-37). -/
structure results where
  area : String
  population : ℕ
  synthpop_totals : List ℝ
  ids : List String
  constraint_totals : List ℝ
  fitness : ℝ

/-- `AnnealingConfig` (src/main.go lines 61-75): the annealing parameters.
`Change` is a Go `int`, modelled as `ℤ` (it is decremented and compared
with 0). -/
structure AnnealingConfig where
  InitialTemp : ℝ
  MinTemp : ℝ
  CoolingRate : ℝ
  ReheatFactor : ℝ
  FitnessThreshold : ℝ
  MinImprovement : ℝ
  MaxIterations : ℕ
  WindowSize : ℕ
  Change : ℤ
  Distance : String
  UseRandomSeed : String
  RandomSeed : Option ℤ

/-- Abstract model of a `math/rand.Rand`: a stream of natural-number draws
consumed by `Intn` and a stream of real draws in `[0,1)` consumed by
`Float64`, each with a position counter.  The claims below depend only on
which source a draw comes from and on the order draws are consumed, never on
the distribution of Go's concrete generator. -/
structure Rng where
  ints : ℕ → ℕ
  floats : ℕ → ℝ
  ip : ℕ
  fp : ℕ

/-- Model of `rng.Intn n`: the next integer draw reduced `% n`, and the
advanced generator.  (Go panics on `n ≤ 0`; every use below has `n > 0`.) -/
def Rng.intn (r : Rng) (n : ℕ) : ℕ × Rng :=
  (r.ints r.ip % n, { r with ip := r.ip + 1 })

/-- Model of `rng.Float64`: the next real draw and the advanced generator. -/
def Rng.float64 (r : Rng) : ℝ × Rng :=
  (r.floats r.fp, { r with fp := r.fp + 1 })

/-- Convenience: a generator whose integer draws are constantly `k` and whose
float draws are constantly `0`. -/
def constRng (k : ℕ) : Rng :=
  ⟨fun _ => k, fun _ => 0, 0, 0⟩

/-- Values of `microdata[j]` (`List.getD` stands in for Go's indexing; every
use in the theorems is guarded by `j < microdata.length`). -/
def mdValues (microdata : List MicroData) (j : ℕ) : List ℝ :=
  (microdata.getD j ⟨"", []⟩).Values

/-- `isValidMicrodata` (src/simulatedAnnealing.go lines 182-189): the loop
over `constraints` returns `false` as soon as some `constraints[i] == 0` has
`mdValues[i] != 0`, else `true`.  Written as a conjunction by structural
recursion on the two lists. -/
def isValidMicrodata : List ℝ → List ℝ → Prop
  | m :: ms, c :: cs => ¬(c = 0 ∧ m ≠ 0) ∧ isValidMicrodata ms cs
  | _, _ => True

/-- The candidate-search loop of `replace` (src/simulatedAnnealing.go lines
216-223): up to `maxAttempts = 100` times, draw `rng.Intn(len(microdata))`
and stop at the first index whose record passes `isValidMicrodata`.  Returns
the found index (or `none`) together with the advanced generator. -/
def findValidCandidate (microdata : List MicroData) (cvals : List ℝ) :
    ℕ → Rng → Option ℕ × Rng
  | 0, r => (none, r)
  | fuel + 1, r =>
      let jr := r.intn microdata.length
      if isValidMicrodata (mdValues microdata jr.1) cvals then (some jr.1, jr.2)
      else findValidCandidate microdata cvals fuel jr.2

/-- The aggregate-update loop of `replace` (src/simulatedAnnealing.go lines
235-237 and, with the roles of the two vectors swapped, the revert at lines
244-246): `totals[i] = totals[i] - oldValues[i] + newValues[i]` for each `i`
in range of `totals`.  A list running out early (a panic in Go) leaves the
remaining cells unchanged; theorems carry equal-length hypotheses. -/
def updateTotals : List ℝ → List ℝ → List ℝ → List ℝ
  | t :: ts, o :: os, n :: ns => (t - o + n) :: updateTotals ts os ns
  | ts, _, _ => ts

/-- The guard of the Metropolis branch, verbatim from
src/simulatedAnnealing.go line 242: the proposal is reverted iff
`newFitness >= fitness || exp((fitness-newFitness)/temp) < u`. -/
def rejectCond (fitness newFitness temp u : ℝ) : Prop :=
  newFitness ≥ fitness ∨ Real.exp ((fitness - newFitness) / temp) < u

/-- Result of one `replace` call: the (possibly reverted) aggregate vector,
the (possibly updated) selection, the returned fitness, the accept flag and
the advanced generator.  In Go the first two are in-place mutations of the
caller's slices. -/
structure ReplaceResult where
  totals : List ℝ
  sel : List ℕ
  fitness : ℝ
  flag : Bool
  rng : Rng

/-- `replace` (src/simulatedAnnealing.go lines 205-255).  Faithful to the
source control flow: if no valid candidate is found in 100 attempts it
returns `(fitness, false)` with the state untouched; otherwise it draws a
slot, applies the delta, scores with `Distance(EUCLIDEAN, …)`, and reverts
unless the proposal strictly improves and the (lazily drawn, short-circuit
`||`) uniform test passes.  The `Float64` draw happens only when
`newFitness < fitness`, exactly as Go's short-circuit `||` evaluates it. -/
def replace (microdata : List MicroData) (constraint : ConstraintData)
    (synthPopTotals : List ℝ) (synthPopMicrodataIndexess : List ℕ)
    (fitness temp : ℝ) (rng : Rng) : ReplaceResult :=
  match findValidCandidate microdata constraint.Values 100 rng with
  | (none, r1) => ⟨synthPopTotals, synthPopMicrodataIndexess, fitness, false, r1⟩
  | (some j, r1) =>
      let kr := r1.intn synthPopMicrodataIndexess.length
      let replacementIndex := synthPopMicrodataIndexess.getD kr.1 0
      let oldValues := mdValues microdata replacementIndex
      let newValues := mdValues microdata j
      let totals1 := updateTotals synthPopTotals oldValues newValues
      let newFitness := Distance EUCLIDEAN constraint.Values totals1
      if newFitness ≥ fitness then
        ⟨updateTotals totals1 newValues oldValues, synthPopMicrodataIndexess,
          fitness, false, kr.2⟩
      else
        let ur := kr.2.float64
        if Real.exp ((fitness - newFitness) / temp) < ur.1 then
          ⟨updateTotals totals1 newValues oldValues, synthPopMicrodataIndexess,
            fitness, false, ur.2⟩
        else
          ⟨totals1, synthPopMicrodataIndexess.set kr.1 j, newFitness, true, ur.2⟩

/-- The change-budget update at the bottom of the main loop of
`syntheticPopulation` (src/simulatedAnnealing.go lines 372-374):
`if !flag { changes-- }`. -/
def updateChanges (changes : ℤ) (flag : Bool) : ℤ :=
  if flag then changes else changes - 1

/-- The pre-filter of `initPopulation` (src/simulatedAnnealing.go lines
271-276): the indices of the records passing `isValidMicrodata`. -/
def validIndices (microdata : List MicroData) (cvals : List ℝ) : List ℕ :=
  (List.range microdata.length).filter
    (fun i => decide (isValidMicrodata (mdValues microdata i) cvals))

/-- The draw loop of `initPopulation` (src/simulatedAnnealing.go lines
283-291): `Total` times, draw a random member of `validIndices` (using the
package-global `rand`, modelled by the threaded `Rng`), append it to the
selection and add its values into the totals. -/
def initLoop (microdata : List MicroData) (valid : List ℕ) :
    ℕ → List ℝ → List ℕ → Rng → List ℝ × List ℕ × Rng
  | 0, totals, sel, r => (totals, sel, r)
  | fuel + 1, totals, sel, r =>
      let ir := r.intn valid.length
      let randomIndex := valid.getD ir.1 0
      initLoop microdata valid fuel
        (List.zipWith (· + ·) totals (mdValues microdata randomIndex))
        (sel ++ [randomIndex]) ir.2

/-- Outcome of `initPopulation`: either the initial totals and selection (and
the advanced global generator) or a Go `panic` with its message. -/
inductive InitResult where
  | ok (totals : List ℝ) (sel : List ℕ) (rng : Rng)
  | panic (msg : String)

/-- `initPopulation` (src/simulatedAnnealing.go lines 266-294).  When no
record passes the feasibility filter the Go code executes
`panic("No valid microdata records match constraints")`; there is no
`recover` anywhere in the repository, so this panic crashes the process.
The draws use the package-global `rand` source (`rand.Intn`, line 284),
modelled by the `globalRng` argument. -/
def initPopulation (constraint : ConstraintData) (microdata : List MicroData)
    (globalRng : Rng) : InitResult :=
  let valid := validIndices microdata constraint.Values
  if valid.length = 0 then
    .panic "No valid microdata records match constraints"
  else
    let res := initLoop microdata valid constraint.Total
      (List.replicate constraint.Values.length 0) [] globalRng
    .ok res.1 res.2.1 res.2.2

/-- The running minimum of the stagnation window, as computed by the scan at
src/simulatedAnnealing.go lines 351-359 (initialised with `window[0]`). -/
def windowMin (w : List ℝ) : ℝ :=
  w.foldl (fun a v => if v < a then v else a) (w.getD 0 0)

/-- The running maximum of the stagnation window (same scan). -/
def windowMax (w : List ℝ) : ℝ :=
  w.foldl (fun a v => if v > a then v else a) (w.getD 0 0)

/-- The mutable state of the main loop of `syntheticPopulation`
(src/simulatedAnnealing.go lines 309-375). -/
structure AnnealState where
  totals : List ℝ
  sel : List ℕ
  fitness : ℝ
  temp : ℝ
  changes : ℤ
  window : List ℝ
  windowIndex : ℕ
  bestTotals : List ℝ
  bestSel : List ℕ
  bestFitness : ℝ
  rng : Rng

/-- The main loop of `syntheticPopulation` (src/simulatedAnnealing.go lines
330-375), by recursion on the remaining iteration budget
(`fuel = MaxIterations - iteration`).  The loop guard
`changes > 0 && temp > MinTemp` is checked before each iteration; the two
`break`s (fitness threshold at line 340-342, deep stagnation at line 364-366)
return the current state directly. -/
def annealLoop (microdata : List MicroData) (constraint : ConstraintData)
    (config : AnnealingConfig) : ℕ → ℕ → AnnealState → AnnealState
  | 0, _, st => st
  | fuel + 1, iteration, st =>
      if st.changes > 0 ∧ st.temp > config.MinTemp then
        let r := replace microdata constraint st.totals st.sel st.fitness st.temp st.rng
        let st1 : AnnealState :=
          { st with totals := r.totals, sel := r.sel, fitness := r.fitness, rng := r.rng }
        let st2 : AnnealState :=
          if r.fitness < st.bestFitness then
            { st1 with bestTotals := r.totals, bestSel := r.sel, bestFitness := r.fitness }
          else st1
        if r.fitness < st.bestFitness ∧ r.fitness ≤ config.FitnessThreshold then st2
        else
          let st3 : AnnealState :=
            { st2 with window := st2.window.set st2.windowIndex r.fitness,
                       windowIndex := (st2.windowIndex + 1) % config.WindowSize }
          let cont : AnnealState → AnnealState := fun stX =>
            annealLoop microdata constraint config fuel (iteration + 1)
              { stX with temp := stX.temp * config.CoolingRate,
                         changes := updateChanges stX.changes r.flag }
          if iteration ≥ config.WindowSize then
            let wb := windowMin st3.window
            let ww := windowMax st3.window
            let ri := (ww - wb) / ww
            if ri < config.MinImprovement then
              let st4 : AnnealState :=
                { st3 with temp := max (st3.temp * (1 + config.ReheatFactor))
                                       (config.InitialTemp * 0.1) }
              if ri < config.MinImprovement / 10 then st4 else cont st4
            else cont st3
          else cont st3
      else st

/-- `syntheticPopulation` (src/simulatedAnnealing.go lines 305-389).
`globalRng` models the package-global `rand` source used by
`initPopulation`; `timeRng` models the generator created at line 327 by
`rand.New(rand.NewSource(time.Now().UnixNano()))` — seeded from the wall
clock, independently of the configuration's `RandomSeed` and of the worker
generators built by `initializeRNG` (src/parallel.go lines 16-35).  The
initial fitness is computed with `KLDivergence` (line 310); a panic of
`initPopulation` is propagated as an `error` value (in Go it crashes the
process). -/
def syntheticPopulation (constraint : ConstraintData) (microdata : List MicroData)
    (config : AnnealingConfig) (globalRng timeRng : Rng) : Except String results :=
  match initPopulation constraint microdata globalRng with
  | .panic msg => .error msg
  | .ok synthPopTotals synthPopIDs _ =>
      let fitness := KLDivergence constraint.Values synthPopTotals
      let improvementWindow := (List.replicate config.WindowSize (0 : ℝ)).set 0 fitness
      let st0 : AnnealState :=
        { totals := synthPopTotals, sel := synthPopIDs, fitness := fitness,
          temp := config.InitialTemp, changes := config.Change,
          window := improvementWindow, windowIndex := 1,
          bestTotals := synthPopTotals, bestSel := synthPopIDs,
          bestFitness := fitness, rng := timeRng }
      let fin := annealLoop microdata constraint config config.MaxIterations 0 st0
      .ok { area := constraint.ID, population := constraint.Total,
            synthpop_totals := fin.bestTotals,
            ids := fin.bestSel.map (fun id => (microdata.getD id ⟨"", []⟩).ID),
            constraint_totals := constraint.Values, fitness := fin.bestFitness }

/-- The identifier stream a run of one area contributes to the assignments
sink (src/parallel.go lines 144-153 write `res.ids` row by row); `[]` for a
run that panicked. -/
def runIds : Except String results → List String
  | .ok r => r.ids
  | .error _ => []

/-- Spec-side: element-wise sum of two vectors (truncating at the shorter). -/
def vecAdd (a b : List ℝ) : List ℝ :=
  List.zipWith (· + ·) a b

/-- Spec-side: the element-wise sum of the value vectors of the records named
by a selection (the right-hand side of invariant I3 of the spec). -/
def selectionSum (microdata : List MicroData) (dim : ℕ) : List ℕ → List ℝ
  | [] => List.replicate dim 0
  | i :: rest => vecAdd (mdValues microdata i) (selectionSum microdata dim rest)

/-- Concrete two-record pool used to exhibit the seeding bug (C7): record
"a" has values `[1]`, record "b" has values `[5]`. -/
def mdPair : List MicroData := [⟨"a", [1]⟩, ⟨"b", [5]⟩]

/-- Concrete area used to exhibit the seeding bug: target `[5]`, one
individual. -/
def cArea : ConstraintData := ⟨"area", [5], 1⟩

/-- Concrete configuration used to exhibit the seeding bug: one iteration,
`UseRandomSeed = "yes"` with a fixed `RandomSeed`. -/
def cfg1 : AnnealingConfig := ⟨10, 0, 1/2, 0, 1/1000, 0, 1, 5, 5, "EUCLIDEAN", "yes", some 42⟩

/-! Helper lemmas. -/

/-- EPSILON is positive. -/
lemma EPSILON_pos : 0 < EPSILON := by norm_num [EPSILON]

/-- The dispatcher applied to the `EUCLIDEAN` code is the Euclidean distance. -/
lemma Distance_euclidean (c t : List ℝ) :
    Distance EUCLIDEAN c t = EuclideanDistance c t := by
  norm_num [Distance, EUCLIDEAN, CHI_SQUARED]

/-- KL-divergence of the unnormalised pair `([1], [2])` is negative: the
single term is `(1+ε) · log ((1+ε)/(2+ε))`, a positive number times the log
of a ratio strictly between 0 and 1. -/
lemma KLDivergence_one_two_neg : KLDivergence [1] [2] < 0 := by
  have hp : (0:ℝ) < 1 + EPSILON := by norm_num [EPSILON]
  have hq : (0:ℝ) < 2 + EPSILON := by norm_num [EPSILON]
  have hr0 : (0:ℝ) < (1 + EPSILON) / (2 + EPSILON) := div_pos hp hq
  have hr1 : (1 + EPSILON) / (2 + EPSILON) < 1 := by
    rw [div_lt_one hq]; norm_num
  have hlog : Real.log ((1 + EPSILON) / (2 + EPSILON)) < 0 := Real.log_neg hr0 hr1
  have : (1 + EPSILON) * Real.log ((1 + EPSILON) / (2 + EPSILON)) < 0 :=
    mul_neg_of_pos_of_neg hp hlog
  simpa [KLDivergence] using this

/-- Chi-squared distance is non-negative whenever the target entries are. -/
lemma chiSquared_nonneg :
    ∀ c t : List ℝ, (∀ x ∈ c, 0 ≤ x) → 0 ≤ ChiSquaredDistance c t := by
  intro c
  induction c with
  | nil => intro t _; cases t <;> simp [ChiSquaredDistance]
  | cons c0 cs ih =>
      intro t hc
      cases t with
      | nil => simp [ChiSquaredDistance]
      | cons t0 ts =>
          have hc0 : (0:ℝ) ≤ c0 := hc c0 (by simp)
          have hden : (0:ℝ) ≤ c0 + EPSILON := by
            have := EPSILON_pos; linarith
          have hterm :
              0 ≤ ((t0 + EPSILON) - (c0 + EPSILON)) * ((t0 + EPSILON) - (c0 + EPSILON))
                    / (c0 + EPSILON) :=
            div_nonneg (mul_self_nonneg _) hden
          have htail : 0 ≤ ChiSquaredDistance cs ts :=
            ih ts (fun x hx => hc x (by simp [hx]))
          simpa [ChiSquaredDistance] using add_nonneg hterm htail

/-- Manhattan distance is non-negative. -/
lemma manhattan_nonneg : ∀ c t : List ℝ, 0 ≤ ManhattanDistance c t := by
  intro c
  induction c with
  | nil => intro t; cases t <;> simp [ManhattanDistance]
  | cons c0 cs ih =>
      intro t
      cases t with
      | nil => simp [ManhattanDistance]
      | cons t0 ts =>
          have := ih ts
          have habs : (0:ℝ) ≤ |t0 - c0| := abs_nonneg _
          simpa [ManhattanDistance] using add_nonneg habs this

/-- KL-divergence vanishes on a pair of equal vectors: each term is
`p * log (p / p)` which is `0` both when `p = 0` (Lean's `0/0 = 0` matches
the factor `p = 0`) and when `p ≠ 0` (the ratio is 1). -/
lemma KLDivergence_self : ∀ v : List ℝ, KLDivergence v v = 0 := by
  intro v
  induction v with
  | nil => simp [KLDivergence]
  | cons v0 vs ih =>
      rcases eq_or_ne (v0 + EPSILON) 0 with h | h
      · simp [KLDivergence, h, ih]
      · simp [KLDivergence, div_self h, ih]

/-- Chi-squared distance vanishes on a pair of equal vectors. -/
lemma chiSquared_self : ∀ v : List ℝ, ChiSquaredDistance v v = 0 := by
  intro v
  induction v with
  | nil => simp [ChiSquaredDistance]
  | cons v0 vs ih => simp [ChiSquaredDistance, ih]

/-- The Euclidean sum of squares vanishes on a pair of equal vectors. -/
lemma euclidSumSq_self : ∀ v : List ℝ, euclidSumSq v v = 0 := by
  intro v
  induction v with
  | nil => simp [euclidSumSq]
  | cons v0 vs ih => simp [euclidSumSq, ih]

/-- The normalized-Euclidean sum vanishes on a pair of equal vectors. -/
lemma normEuclidSum_self : ∀ v : List ℝ, normEuclidSum v v = 0 := by
  intro v
  induction v with
  | nil => simp [normEuclidSum]
  | cons v0 vs ih =>
      by_cases h : |v0| < EPSILON
      · have h2 : ¬ |v0| > EPSILON := not_lt_of_gt h
        simp [normEuclidSum, h, h2, ih]
      · simp [normEuclidSum, h, ih]

/-- Manhattan distance vanishes on a pair of equal vectors. -/
lemma manhattan_self : ∀ v : List ℝ, ManhattanDistance v v = 0 := by
  intro v
  induction v with
  | nil => simp [ManhattanDistance]
  | cons v0 vs ih => simp [ManhattanDistance, ih]

/-- Case analysis of one `replace` call: either no feasible candidate was
found in the 100 attempts (state untouched, `flag = false`), or a candidate
`j` was found and the proposal was either reverted by the Metropolis guard
(`flag = false`, aggregate restored by the inverse delta) or accepted
(`flag = true`, slot overwritten, fitness re-scored with
`Distance EUCLIDEAN`). -/
lemma replace_result (md : List MicroData) (c : ConstraintData) (totals : List ℝ)
    (sel : List ℕ) (fitness temp : ℝ) (rng : Rng) :
    (∃ r1, findValidCandidate md c.Values 100 rng = (none, r1) ∧
        replace md c totals sel fitness temp rng
          = ⟨totals, sel, fitness, false, r1⟩) ∨
    (∃ j r1, findValidCandidate md c.Values 100 rng = (some j, r1) ∧
        ((∃ r2, replace md c totals sel fitness temp rng
            = ⟨updateTotals
                 (updateTotals totals
                   (mdValues md (sel.getD ((r1.intn sel.length).1) 0)) (mdValues md j))
                 (mdValues md j) (mdValues md (sel.getD ((r1.intn sel.length).1) 0)),
               sel, fitness, false, r2⟩ ∧
            (Distance EUCLIDEAN c.Values
                (updateTotals totals
                  (mdValues md (sel.getD ((r1.intn sel.length).1) 0)) (mdValues md j))
                ≥ fitness ∨
             Real.exp ((fitness - Distance EUCLIDEAN c.Values
                 (updateTotals totals
                   (mdValues md (sel.getD ((r1.intn sel.length).1) 0)) (mdValues md j)))
                 / temp)
               < (((r1.intn sel.length).2.float64).1))) ∨
         (∃ r2, replace md c totals sel fitness temp rng
            = ⟨updateTotals totals
                 (mdValues md (sel.getD ((r1.intn sel.length).1) 0)) (mdValues md j),
               sel.set ((r1.intn sel.length).1) j,
               Distance EUCLIDEAN c.Values
                 (updateTotals totals
                   (mdValues md (sel.getD ((r1.intn sel.length).1) 0)) (mdValues md j)),
               true, r2⟩ ∧
            ¬ (Distance EUCLIDEAN c.Values
                (updateTotals totals
                  (mdValues md (sel.getD ((r1.intn sel.length).1) 0)) (mdValues md j))
                ≥ fitness) ∧
            ¬ (Real.exp ((fitness - Distance EUCLIDEAN c.Values
                 (updateTotals totals
                   (mdValues md (sel.getD ((r1.intn sel.length).1) 0)) (mdValues md j)))
                 / temp)
               < (((r1.intn sel.length).2.float64).1))))) := by
  rcases hfc : findValidCandidate md c.Values 100 rng with ⟨jo, r1⟩
  cases jo with
  | none =>
      refine Or.inl ⟨r1, rfl, ?_⟩
      unfold replace
      rw [hfc]
  | some j =>
      refine Or.inr ⟨j, r1, rfl, ?_⟩
      unfold replace
      rw [hfc]
      dsimp only
      by_cases h1 :
          Distance EUCLIDEAN c.Values
              (updateTotals totals
                (mdValues md (sel.getD ((r1.intn sel.length).1) 0))
                (mdValues md j)) ≥ fitness
      · rw [if_pos h1]
        exact Or.inl ⟨_, rfl, Or.inl h1⟩
      · rw [if_neg h1]
        by_cases h2 :
            Real.exp ((fitness -
                Distance EUCLIDEAN c.Values
                  (updateTotals totals
                    (mdValues md (sel.getD ((r1.intn sel.length).1) 0))
                    (mdValues md j))) / temp)
              < ((r1.intn sel.length).2.float64).1
        · rw [if_pos h2]
          exact Or.inl ⟨_, rfl, Or.inr h2⟩
        · rw [if_neg h2]
          exact Or.inr ⟨_, rfl, h1, h2⟩

/-- If every record of the pool is infeasible, the candidate loop never
finds a candidate, whatever its fuel and generator. -/
lemma findValidCandidate_none (md : List MicroData) (cv : List ℝ)
    (h0 : 0 < md.length)
    (h : ∀ j, j < md.length → ¬ isValidMicrodata (mdValues md j) cv) :
    ∀ fuel r, (findValidCandidate md cv fuel r).1 = none := by
  intro fuel
  induction fuel with
  | zero => intro r; rfl
  | succ n ih =>
      intro r
      have hj : (r.ints r.ip % md.length) < md.length := Nat.mod_lt _ h0
      have hnv := h _ hj
      simp [findValidCandidate, Rng.intn, hnv, ih]

/-- The single record `[1]` is infeasible for the zero constraint `[0]`. -/
lemma not_valid_one_zero : ¬ isValidMicrodata [1] [0] := by
  simp [isValidMicrodata]

/-- Applying the inverse delta in the same cells restores the vector exactly
(over the exact real arithmetic of the embedding). -/
lemma updateTotals_revert : ∀ t o n : List ℝ,
    updateTotals (updateTotals t o n) n o = t := by
  intro t
  induction t with
  | nil => intro o n; cases o <;> cases n <;> simp [updateTotals]
  | cons x ts ih =>
      intro o n
      cases o with
      | nil => cases n <;> simp [updateTotals]
      | cons o1 os =>
          cases n with
          | nil => simp [updateTotals]
          | cons n1 ns =>
              simp only [updateTotals, List.cons.injEq]
              exact ⟨by ring, ih os ns⟩

/-- Replacing the contribution of `v` by that of `w` in a sum `v + s` is the
delta update of the sum, for same-length `v` and `w`. -/
lemma vecAdd_swap : ∀ v w s : List ℝ, v.length = w.length →
    vecAdd w s = updateTotals (vecAdd v s) v w := by
  intro v
  induction v with
  | nil =>
      intro w s h
      cases w with
      | nil => cases s <;> simp [vecAdd, updateTotals]
      | cons w1 ws => simp at h
  | cons v1 vs ih =>
      intro w s h
      cases w with
      | nil => simp at h
      | cons w1 ws =>
          cases s with
          | nil => simp [vecAdd, updateTotals]
          | cons s1 ss =>
              simp only [vecAdd, List.zipWith_cons_cons, updateTotals, List.cons.injEq]
              refine ⟨by ring, ?_⟩
              simpa [vecAdd] using ih ws ss (by simpa using h)

/-- A delta update commutes with adding another vector on top. -/
lemma vecAdd_updateTotals : ∀ a b o n : List ℝ,
    vecAdd a (updateTotals b o n) = updateTotals (vecAdd a b) o n := by
  intro a
  induction a with
  | nil => intro b o n; simp [vecAdd, updateTotals]
  | cons a1 as ih =>
      intro b o n
      cases b with
      | nil => cases o <;> cases n <;> simp [vecAdd, updateTotals]
      | cons b1 bs =>
          cases o with
          | nil => simp [vecAdd, updateTotals]
          | cons o1 os =>
              cases n with
              | nil => simp [vecAdd, updateTotals]
              | cons n1 ns =>
                  simp only [vecAdd, List.zipWith_cons_cons, updateTotals,
                    List.cons.injEq]
                  refine ⟨by ring, ?_⟩
                  simpa [vecAdd] using ih bs os ns

/-- Overwriting slot `k` of the selection with `j` changes the selection sum
by exactly the delta of the two records' vectors. -/
lemma selectionSum_set (md : List MicroData) (dim : ℕ) :
    ∀ (sel : List ℕ) (k j : ℕ), k < sel.length →
      (mdValues md (sel.getD k 0)).length = (mdValues md j).length →
      selectionSum md dim (sel.set k j)
        = updateTotals (selectionSum md dim sel)
            (mdValues md (sel.getD k 0)) (mdValues md j) := by
  intro sel
  induction sel with
  | nil => intro k j hk; simp at hk
  | cons s rest ih =>
      intro k j hk hlen
      cases k with
      | zero =>
          simp only [List.set_cons_zero, List.getD_cons_zero] at hlen ⊢
          simp only [selectionSum]
          exact vecAdd_swap (mdValues md s) (mdValues md j) _ hlen
      | succ k' =>
          simp only [List.set_cons_succ, List.getD_cons_succ] at hlen ⊢
          simp only [selectionSum]
          rw [ih k' j (by simpa using hk) hlen, ← vecAdd_updateTotals]

/-- A found candidate index is in range of the pool. -/
lemma findValidCandidate_lt (md : List MicroData) (cv : List ℝ)
    (h0 : 0 < md.length) :
    ∀ (fuel : ℕ) (r : Rng) (j : ℕ) (r2 : Rng),
      findValidCandidate md cv fuel r = (some j, r2) → j < md.length := by
  intro fuel
  induction fuel with
  | zero => intro r j r2 h; simp [findValidCandidate] at h
  | succ n ih =>
      intro r j r2 h
      by_cases hv : isValidMicrodata (mdValues md ((r.intn md.length).1)) cv
      · rw [findValidCandidate, if_pos hv] at h
        obtain ⟨hj, -⟩ := Prod.mk.injEq .. ▸ h
        cases hj
        exact Nat.mod_lt _ h0
      · rw [findValidCandidate, if_neg hv] at h
        exact ih _ _ _ h

/-- The values vector of an in-range record has the common length. -/
lemma mdValues_length (md : List MicroData) (i : ℕ) (L : ℕ)
    (h : i < md.length) (hmd : ∀ m ∈ md, m.Values.length = L) :
    (mdValues md i).length = L := by
  rw [mdValues, List.getD_eq_getElem _ _ h]
  exact hmd _ (List.getElem_mem h)

/-! Claim theorems. -/

/-- C10 (confirmed): for every metric code other than `CHI_SQUARED`,
`EUCLIDEAN`, `NORM_EUCLIDEAN` and `MANHATTEN`, the `Distance` dispatcher
falls through to the `default` case and returns the KL-divergence of the
pair — an unrecognised code is not rejected at this layer. -/
theorem distance_default_falls_back_to_kl (m : ℤ) (c t : List ℝ)
    (h1 : m ≠ CHI_SQUARED) (h2 : m ≠ EUCLIDEAN)
    (h3 : m ≠ NORM_EUCLIDEAN) (h4 : m ≠ MANHATTEN) :
    Distance m c t = KLDivergence c t := by
  simp [Distance, h1, h2, h3, h4]

/-- Witness for C10 at the concrete unrecognised code 7. -/
theorem distance_default_falls_back_to_kl_witness :
    (7:ℤ) ≠ CHI_SQUARED ∧ (7:ℤ) ≠ EUCLIDEAN ∧ (7:ℤ) ≠ NORM_EUCLIDEAN ∧
      (7:ℤ) ≠ MANHATTEN ∧ Distance 7 [1] [2] = KLDivergence [1] [2] :=
  ⟨by norm_num [CHI_SQUARED], by norm_num [EUCLIDEAN], by norm_num [NORM_EUCLIDEAN],
    by norm_num [MANHATTEN],
    distance_default_falls_back_to_kl 7 [1] [2] (by norm_num [CHI_SQUARED])
      (by norm_num [EUCLIDEAN]) (by norm_num [NORM_EUCLIDEAN]) (by norm_num [MANHATTEN])⟩

/-- C1 (code bug): with the `||` of src/simulatedAnnealing.go line 242, the
proposal is accepted if and only if it strictly improves the fitness — for
`temp > 0` and a uniform draw `u < 1` the `exp ((fitness-newFitness)/temp) < u`
test can only fire when `newFitness < fitness` (where the exponential is at
least 1, so it never fires), and a worsening proposal is always rejected by
the first disjunct.  The spec's Metropolis rule (accept a worsening proposal
with probability `exp (-delta/temp)`) is therefore dead code. -/
theorem replace_accepts_iff_strictly_improves
    (fitness newFitness temp u : ℝ) (ht : 0 < temp) (hu : u < 1) :
    ¬ rejectCond fitness newFitness temp u ↔ newFitness < fitness := by
  constructor
  · intro h
    have := (not_or.mp h).1
    exact lt_of_not_le this
  · intro hlt
    rw [rejectCond, not_or]
    refine ⟨not_le.mpr hlt, not_lt.mpr ?_⟩
    have hx : 0 ≤ (fitness - newFitness) / temp :=
      le_of_lt (div_pos (by linarith) ht)
    exact le_trans (le_of_lt hu) (Real.one_le_exp hx)

/-- Witness for C1 at `fitness = 2, newFitness = 1, temp = 1, u = 1/2`. -/
theorem replace_accepts_iff_strictly_improves_witness :
    (0:ℝ) < 1 ∧ (1/2:ℝ) < 1 ∧
      (¬ rejectCond 2 1 1 (1/2) ↔ (1:ℝ) < 2) :=
  ⟨by norm_num, by norm_num,
    replace_accepts_iff_strictly_improves 2 1 1 (1/2) (by norm_num) (by norm_num)⟩

/-- C5 counterexample: the claim says every divergence in the library returns
a non-negative real on non-negative equal-length vectors, but the
ε-stabilised KL-divergence of the unnormalised pair `([1], [2])` is
negative. -/
theorem kl_divergence_negative_counterexample : KLDivergence [1] [2] < 0 :=
  KLDivergence_one_two_neg

/-- C5 (corrected): chi-squared (on non-negative targets), Euclidean,
normalized-Euclidean and Manhattan distances are non-negative, and every
divergence in the library returns exactly 0 on element-wise equal vectors;
KL-divergence, however, is not non-negative in general (see the
counterexample). -/
theorem divergences_nonneg_and_zero_on_equal :
    (∀ c t : List ℝ, (∀ x ∈ c, 0 ≤ x) → 0 ≤ ChiSquaredDistance c t) ∧
    (∀ c t : List ℝ, 0 ≤ EuclideanDistance c t) ∧
    (∀ c t : List ℝ, 0 ≤ NormalizedEuclideanDistance c t) ∧
    (∀ c t : List ℝ, 0 ≤ ManhattanDistance c t) ∧
    (∀ v : List ℝ, KLDivergence v v = 0 ∧ ChiSquaredDistance v v = 0 ∧
      EuclideanDistance v v = 0 ∧ NormalizedEuclideanDistance v v = 0 ∧
      ManhattanDistance v v = 0) := by
  refine ⟨chiSquared_nonneg, ?_, ?_, manhattan_nonneg, ?_⟩
  · intro c t; exact Real.sqrt_nonneg _
  · intro c t; exact Real.sqrt_nonneg _
  · intro v
    refine ⟨KLDivergence_self v, chiSquared_self v, ?_, ?_, manhattan_self v⟩
    · rw [EuclideanDistance, euclidSumSq_self v, Real.sqrt_zero]
    · rw [NormalizedEuclideanDistance, normEuclidSum_self v, Real.sqrt_zero]

/-- Witness for C5 at concrete vectors. -/
theorem divergences_nonneg_and_zero_on_equal_witness :
    0 ≤ ChiSquaredDistance [1] [2] ∧ KLDivergence [3] [3] = 0 :=
  ⟨divergences_nonneg_and_zero_on_equal.1 [1] [2] (by norm_num),
    (divergences_nonneg_and_zero_on_equal.2.2.2.2 [3]).1⟩

/-- C2 counterexample: the proposal-scoring function of `replace`
(src/simulatedAnnealing.go line 239, `Distance(EUCLIDEAN, …)` regardless of
the configured divergence name) and the initial-fitness function of
`syntheticPopulation` (line 310, `KLDivergence`) are different functions:
they disagree at `([1], [2])` (the Euclidean value is a square root, hence
non-negative, while the KL value is negative).  So no single configured
divergence is used both for acceptance scoring and for the initial
fitness. -/
theorem acceptance_and_initial_divergence_differ :
    Distance EUCLIDEAN [1] [2] ≠ KLDivergence [1] [2] := by
  have h1 : (0:ℝ) ≤ Distance EUCLIDEAN [1] [2] := by
    rw [Distance_euclidean]; exact Real.sqrt_nonneg _
  have h2 := KLDivergence_one_two_neg
  intro h
  rw [h] at h1
  linarith

/-- C2 (corrected): whenever `replace` accepts a proposal, the fitness it
returns is the Euclidean distance between the constraint vector and the new
aggregate — the metric is hard-coded to `EUCLIDEAN` at
src/simulatedAnnealing.go line 239 and the configured divergence name never
reaches the anneal (the initial fitness is computed with `KLDivergence`
instead, line 310). -/
theorem accepted_fitness_is_euclidean
    (md : List MicroData) (c : ConstraintData) (totals : List ℝ) (sel : List ℕ)
    (fitness temp : ℝ) (rng : Rng)
    (h : (replace md c totals sel fitness temp rng).flag = true) :
    (replace md c totals sel fitness temp rng).fitness
      = EuclideanDistance c.Values (replace md c totals sel fitness temp rng).totals := by
  rcases replace_result md c totals sel fitness temp rng with
    ⟨r1, _, heq⟩ | ⟨j, r1, _, ⟨r2, heq, _⟩ | ⟨r2, heq, _, _⟩⟩
  · rw [heq] at h; simp at h
  · rw [heq] at h; simp at h
  · rw [heq] at h ⊢
    exact Distance_euclidean _ _

/-- The concrete accept scenario used by the witnesses: the single record
`[1]` is feasible for constraint `[5]`, the re-scored fitness `sqrt 16` is
below the incoming fitness `100`, and the exponential test cannot fire
against the float draw `0`, so `replace` accepts. -/
lemma replace_accepts_concrete :
    (replace [⟨"a", [1]⟩] ⟨"c", [5], 1⟩ [1] [0] 100 1 (constRng 0)).flag = true := by
  have hvalid : isValidMicrodata (mdValues [⟨"a", [1]⟩] 0) [5] := by
    simp [isValidMicrodata, mdValues]
  have hfc' :
      findValidCandidate [⟨"a", [1]⟩] [5] 100 (constRng 0)
        = (some 0, ⟨fun _ => 0, fun _ => 0, 1, 0⟩) := by
    rw [show (100:ℕ) = 99 + 1 from rfl]
    simp [findValidCandidate, Rng.intn, constRng, hvalid]
  have hlt : Distance EUCLIDEAN [5] (updateTotals [1] [1] [1]) < 100 := by
    rw [Distance_euclidean]
    have hut : updateTotals [1] [1] [1] = [1] := by
      norm_num [updateTotals]
    rw [hut]
    have h16 : euclidSumSq [5] [1] = 16 := by
      norm_num [euclidSumSq]
    rw [EuclideanDistance, h16]
    rw [Real.sqrt_lt' (by norm_num : (0:ℝ) < 100)]
    norm_num
  rcases replace_result [⟨"a", [1]⟩] ⟨"c", [5], 1⟩ [1] [0] 100 1 (constRng 0) with
    ⟨r1, hfc, heq⟩ | ⟨j, r1, hfc, ⟨r2, heq, hcond⟩ | ⟨r2, heq, _, _⟩⟩
  · rw [hfc] at hfc'
    simp at hfc'
  · rw [hfc] at hfc'
    simp only [Prod.mk.injEq, Option.some.injEq] at hfc'
    obtain ⟨hj, hr⟩ := hfc'
    subst hj; subst hr
    rcases hcond with hge | hexp
    · simp only [Rng.intn, mdValues, List.getD] at hge
      norm_num at hge
      exact absurd hge (not_le.mpr hlt)
    · simp only [Rng.intn, Rng.float64] at hexp
      norm_num at hexp
      exact absurd hexp (not_lt.mpr (le_of_lt (Real.exp_pos _)))
  · rw [heq]

/-- Witness for the amended C2 at a concrete accepted proposal. -/
theorem accepted_fitness_is_euclidean_witness :
    (replace [⟨"a", [1]⟩] ⟨"c", [5], 1⟩ [1] [0] 100 1 (constRng 0)).flag = true ∧
    (replace [⟨"a", [1]⟩] ⟨"c", [5], 1⟩ [1] [0] 100 1 (constRng 0)).fitness
      = EuclideanDistance [5]
          (replace [⟨"a", [1]⟩] ⟨"c", [5], 1⟩ [1] [0] 100 1 (constRng 0)).totals :=
  ⟨replace_accepts_concrete,
    accepted_fitness_is_euclidean [⟨"a", [1]⟩] ⟨"c", [5], 1⟩ [1] [0] 100 1 (constRng 0)
      replace_accepts_concrete⟩

/-- C3 counterexample: the claim says an iteration in which no feasible
candidate is drawn is skipped *without* decrementing the change budget; but
`replace` returns `flag = false` in that case (src/simulatedAnnealing.go line
226) and the loop decrements `changes` whenever `flag` is false (lines
372-374).  With a pool whose only record is infeasible, the budget drops
from 5 to 4. -/
theorem skip_charges_change_budget_counterexample :
    ¬ isValidMicrodata [1] [0] ∧
    (replace [⟨"a", [1]⟩] ⟨"c", [0], 1⟩ [1] [0] 7 1 (constRng 0)).flag = false ∧
    updateChanges 5 ((replace [⟨"a", [1]⟩] ⟨"c", [0], 1⟩ [1] [0] 7 1 (constRng 0)).flag)
      ≠ 5 := by
  have hall : ∀ j, j < ([⟨"a", [1]⟩] : List MicroData).length →
      ¬ isValidMicrodata (mdValues [⟨"a", [1]⟩] j) [0] := by
    intro j hj
    have : j = 0 := Nat.lt_one_iff.mp (by simpa using hj)
    subst this
    simpa [mdValues] using not_valid_one_zero
  have hnone := findValidCandidate_none [⟨"a", [1]⟩] [0] (by norm_num) hall 100 (constRng 0)
  rcases replace_result [⟨"a", [1]⟩] ⟨"c", [0], 1⟩ [1] [0] 7 1 (constRng 0) with
    ⟨r1, hfc, heq⟩ | ⟨j, r1, hfc, _⟩
  · rw [heq]
    refine ⟨not_valid_one_zero, rfl, ?_⟩
    simp [updateChanges]
  · rw [hfc] at hnone
    simp at hnone

/-- C3 (corrected): when no feasible candidate is drawn within the 100
attempts, `replace` leaves the state untouched but returns `flag = false`,
and the main loop therefore *does* decrement the change budget `C` — the
budget is charged both for Metropolis rejections and for infeasible skips,
not only for scored-and-rejected proposals. -/
theorem skip_decrements_change_budget
    (md : List MicroData) (c : ConstraintData) (totals : List ℝ) (sel : List ℕ)
    (fitness temp : ℝ) (rng : Rng) (changes : ℤ)
    (h0 : 0 < md.length)
    (h : ∀ j, j < md.length → ¬ isValidMicrodata (mdValues md j) c.Values) :
    (replace md c totals sel fitness temp rng).flag = false ∧
    (replace md c totals sel fitness temp rng).totals = totals ∧
    (replace md c totals sel fitness temp rng).sel = sel ∧
    (replace md c totals sel fitness temp rng).fitness = fitness ∧
    updateChanges changes (replace md c totals sel fitness temp rng).flag
      = changes - 1 := by
  have hnone := findValidCandidate_none md c.Values h0 h 100 rng
  rcases replace_result md c totals sel fitness temp rng with
    ⟨r1, hfc, heq⟩ | ⟨j, r1, hfc, _⟩
  · rw [heq]
    exact ⟨rfl, rfl, rfl, rfl, by simp [updateChanges]⟩
  · rw [hfc] at hnone
    simp at hnone

/-- Every index returned by the candidate loop names a record that passes
the feasibility check. -/
lemma findValidCandidate_valid (md : List MicroData) (cv : List ℝ) :
    ∀ (fuel : ℕ) (r : Rng) (j : ℕ) (r2 : Rng),
      findValidCandidate md cv fuel r = (some j, r2) →
      isValidMicrodata (mdValues md j) cv := by
  intro fuel
  induction fuel with
  | zero => intro r j r2 h; simp [findValidCandidate] at h
  | succ n ih =>
      intro r j r2 h
      by_cases hv : isValidMicrodata (mdValues md ((r.intn md.length).1)) cv
      · rw [findValidCandidate, if_pos hv] at h
        obtain ⟨hj, -⟩ := Prod.mk.injEq .. ▸ h
        cases hj
        exact hv
      · rw [findValidCandidate, if_neg hv] at h
        exact ih _ _ _ h

/-- Membership in the pre-filter `validIndices` means passing the
feasibility check. -/
lemma validIndices_valid (md : List MicroData) (cv : List ℝ) (i : ℕ)
    (h : i ∈ validIndices md cv) : isValidMicrodata (mdValues md i) cv := by
  rw [validIndices, List.mem_filter] at h
  exact of_decide_eq_true h.2

/-- Every index the initial-population draw loop appends comes from the
`valid` list (or was already in the accumulator). -/
lemma initLoop_sel_valid (md : List MicroData) (valid : List ℕ) (P : ℕ → Prop)
    (hv : ∀ v ∈ valid, P v) (hlen : 0 < valid.length) :
    ∀ (fuel : ℕ) (totals : List ℝ) (sel : List ℕ) (r : Rng),
      (∀ i ∈ sel, P i) →
      ∀ i ∈ (initLoop md valid fuel totals sel r).2.1, P i := by
  intro fuel
  induction fuel with
  | zero => intro totals sel r hsel i hi; exact hsel i hi
  | succ n ih =>
      intro totals sel r hsel i hi
      rw [initLoop] at hi
      refine ih _ _ _ ?_ i hi
      intro x hx
      rcases List.mem_append.mp hx with hx | hx
      · exact hsel x hx
      · have hx0 : x = valid.getD ((r.intn valid.length).1) 0 := by
          simpa using hx
        subst hx0
        have hk : (r.intn valid.length).1 < valid.length := Nat.mod_lt _ hlen
        rw [List.getD_eq_getElem valid 0 hk]
        exact hv _ (List.getElem_mem hk)

/-- The loop of `isValidMicrodata` is equivalent to the universally
quantified zero-constraint condition, for equal-length vectors. -/
lemma isValidMicrodata_iff :
    ∀ (mdv cs : List ℝ), mdv.length = cs.length →
      (isValidMicrodata mdv cs ↔
        ∀ i, i < cs.length → cs.getD i 0 = 0 → mdv.getD i 0 = 0) := by
  intro mdv
  induction mdv with
  | nil =>
      intro cs hlen
      cases cs with
      | nil => simp [isValidMicrodata]
      | cons c cs' => simp at hlen
  | cons m ms ih =>
      intro cs hlen
      cases cs with
      | nil => simp at hlen
      | cons c cs' =>
          have hlen' : ms.length = cs'.length := by simpa using hlen
          constructor
          · rintro ⟨h0, hrest⟩ i hi hci
            cases i with
            | zero =>
                simp only [List.getD_cons_zero] at hci ⊢
                by_contra hm
                exact h0 ⟨hci, hm⟩
            | succ i' =>
                have hi' : i' < cs'.length := by simpa using hi
                simpa using (ih cs' hlen').mp hrest i' hi' (by simpa using hci)
          · intro h
            refine ⟨?_, (ih cs' hlen').mpr ?_⟩
            · rintro ⟨hc, hm⟩
              exact hm (by simpa using h 0 (by simp) (by simpa using hc))
            · intro i hi hci
              simpa using h (i + 1) (by simpa using hi) (by simpa using hci)

/-- C9 (confirmed): the feasibility predicate holds iff every attribute with
a zero constraint is zero in the record, and infeasible records are excluded
both from the initial-population draw (they never enter `validIndices`, and
the selection built by `initPopulation` only contains feasible indices) and
from proposal candidates (`findValidCandidate` only returns feasible
indices). -/
theorem feasibility_predicate_characterisation :
    (∀ (mdv cs : List ℝ), mdv.length = cs.length →
      (isValidMicrodata mdv cs ↔
        ∀ i, i < cs.length → cs.getD i 0 = 0 → mdv.getD i 0 = 0)) ∧
    (∀ (md : List MicroData) (cv : List ℝ) (i : ℕ),
      i ∈ validIndices md cv → isValidMicrodata (mdValues md i) cv) ∧
    (∀ (md : List MicroData) (cv : List ℝ) (fuel : ℕ) (r : Rng) (j : ℕ) (r2 : Rng),
      findValidCandidate md cv fuel r = (some j, r2) →
      isValidMicrodata (mdValues md j) cv) ∧
    (∀ (c : ConstraintData) (md : List MicroData) (g : Rng)
        (totals : List ℝ) (sel : List ℕ) (r2 : Rng),
      initPopulation c md g = .ok totals sel r2 →
      ∀ i ∈ sel, isValidMicrodata (mdValues md i) c.Values) := by
  refine ⟨isValidMicrodata_iff, validIndices_valid, findValidCandidate_valid, ?_⟩
  intro c md g totals sel r2 h i hi
  rw [initPopulation] at h
  by_cases hlen : (validIndices md c.Values).length = 0
  · rw [if_pos hlen] at h
    simp at h
  · rw [if_neg hlen] at h
    obtain ⟨-, hsel, -⟩ := InitResult.ok.injEq .. ▸ h
    have hpos : 0 < (validIndices md c.Values).length := Nat.pos_of_ne_zero hlen
    refine initLoop_sel_valid md (validIndices md c.Values)
      (fun i => isValidMicrodata (mdValues md i) c.Values)
      (fun v hv => validIndices_valid md c.Values v hv) hpos
      c.Total (List.replicate c.Values.length 0) [] g (by simp) i ?_
    rw [hsel]
    exact hi

/-- Witness for C9 at concrete vectors and a concrete one-record pool. -/
theorem feasibility_predicate_characterisation_witness :
    (([0] : List ℝ).length = ([0] : List ℝ).length) ∧
    (isValidMicrodata [0] [0] ↔
      ∀ i, i < ([0] : List ℝ).length →
        ([0] : List ℝ).getD i 0 = 0 → ([0] : List ℝ).getD i 0 = 0) :=
  ⟨rfl, feasibility_predicate_characterisation.1 [0] [0] rfl⟩

/-- C4 (confirmed over the exact-real embedding): after a `replace` call the
aggregate vector equals the element-wise sum of the value vectors of the
records named by the (possibly updated) selection, and whenever the proposal
is not accepted (`flag = false`) the aggregate is restored to exactly its
pre-proposal value by the inverse delta. -/
theorem replace_maintains_aggregate
    (md : List MicroData) (c : ConstraintData) (totals : List ℝ) (sel : List ℕ)
    (fitness temp : ℝ) (rng : Rng)
    (hmd : ∀ m ∈ md, m.Values.length = totals.length)
    (hsel : ∀ i ∈ sel, i < md.length)
    (hne : sel ≠ [])
    (hagg : totals = selectionSum md totals.length sel) :
    (replace md c totals sel fitness temp rng).totals
        = selectionSum md totals.length (replace md c totals sel fitness temp rng).sel ∧
    ((replace md c totals sel fitness temp rng).flag = false →
        (replace md c totals sel fitness temp rng).totals = totals) := by
  obtain ⟨s0, hs0⟩ := List.exists_mem_of_ne_nil sel hne
  have hmd0 : 0 < md.length := Nat.lt_of_le_of_lt (Nat.zero_le s0) (hsel s0 hs0)
  rcases replace_result md c totals sel fitness temp rng with
    ⟨r1, hfc, heq⟩ | ⟨j, r1, hfc, ⟨r2, heq, -⟩ | ⟨r2, heq, -, -⟩⟩
  · rw [heq]
    exact ⟨hagg, fun _ => rfl⟩
  · rw [heq]
    have hrev := updateTotals_revert totals
      (mdValues md (sel.getD ((r1.intn sel.length).1) 0)) (mdValues md j)
    exact ⟨by rw [hrev]; exact hagg, fun _ => hrev⟩
  · rw [heq]
    have hk : (r1.intn sel.length).1 < sel.length :=
      Nat.mod_lt _ (List.length_pos.mpr hne)
    have hj : j < md.length := findValidCandidate_lt md c.Values hmd0 100 rng j r1 hfc
    have hmem : sel.getD ((r1.intn sel.length).1) 0 ∈ sel := by
      rw [List.getD_eq_getElem sel 0 hk]
      exact List.getElem_mem hk
    have hlen : (mdValues md (sel.getD ((r1.intn sel.length).1) 0)).length
        = (mdValues md j).length := by
      rw [mdValues_length md _ totals.length (hsel _ hmem) hmd,
        mdValues_length md j totals.length hj hmd]
    refine ⟨?_, fun hfl => by simp at hfl⟩
    rw [selectionSum_set md totals.length sel _ j hk hlen, ← hagg]

/-- Witness for C4 at a concrete one-record population. -/
theorem replace_maintains_aggregate_witness :
    (replace [⟨"a", [1]⟩] ⟨"c", [5], 1⟩ [1] [0] 0 1 (constRng 0)).totals
        = selectionSum [⟨"a", [1]⟩] ([1] : List ℝ).length
            (replace [⟨"a", [1]⟩] ⟨"c", [5], 1⟩ [1] [0] 0 1 (constRng 0)).sel ∧
    ((replace [⟨"a", [1]⟩] ⟨"c", [5], 1⟩ [1] [0] 0 1 (constRng 0)).flag = false →
        (replace [⟨"a", [1]⟩] ⟨"c", [5], 1⟩ [1] [0] 0 1 (constRng 0)).totals = [1]) :=
  replace_maintains_aggregate [⟨"a", [1]⟩] ⟨"c", [5], 1⟩ [1] [0] 0 1 (constRng 0)
    (by simp) (by simp) (by simp)
    (by simp [selectionSum, vecAdd, mdValues])

/-- If no record is feasible, `initPopulation` panics with the source's
message, and `syntheticPopulation` propagates the crash. -/
lemma initPopulation_panic_of_empty (c : ConstraintData) (md : List MicroData)
    (g : Rng) (h : validIndices md c.Values = []) :
    initPopulation c md g = .panic "No valid microdata records match constraints" := by
  rw [initPopulation, if_pos (by rw [h]; rfl)]

/-- The one-record pool `[1]` has no feasible record for constraint `[0]`. -/
lemma validIndices_concrete_empty :
    validIndices [⟨"a", [1]⟩] [0] = [] := by
  rw [validIndices]
  rw [show List.range ([⟨"a", [1]⟩] : List MicroData).length = [0] from rfl]
  simp [List.filter_cons, mdValues, isValidMicrodata]

/-- C6 counterexample: at a concrete area with an empty feasible set, the
code executes `panic("No valid microdata records match constraints")`
(src/simulatedAnnealing.go line 279) — there is no `NoFeasibleRecords` error
value anywhere in the repository and no `recover`, so the process crashes
instead of returning an error the coordinator could aggregate. -/
theorem no_feasible_records_panics_counterexample :
    initPopulation ⟨"c", [0], 1⟩ [⟨"a", [1]⟩] (constRng 0)
      = .panic "No valid microdata records match constraints" ∧
    syntheticPopulation ⟨"c", [0], 1⟩ [⟨"a", [1]⟩]
        ⟨10, 0, 1/2, 0, 1/1000, 0, 1, 5, 5, "EUCLIDEAN", "yes", some 42⟩
        (constRng 0) (constRng 0)
      = .error "No valid microdata records match constraints" := by
  have hp := initPopulation_panic_of_empty ⟨"c", [0], 1⟩ [⟨"a", [1]⟩] (constRng 0)
    validIndices_concrete_empty
  exact ⟨hp, by rw [syntheticPopulation, hp]⟩

/-- C6 (corrected): for every area whose feasible set is empty, the anneal
does not return a `NoFeasibleRecords` error — `initPopulation` panics with
the fixed message and `syntheticPopulation` forwards the crash (modelled as
the `error` outcome). -/
theorem no_feasible_records_panic (c : ConstraintData) (md : List MicroData)
    (g : Rng) (h : validIndices md c.Values = []) :
    initPopulation c md g = .panic "No valid microdata records match constraints" ∧
    ∀ (config : AnnealingConfig) (t : Rng),
      syntheticPopulation c md config g t
        = .error "No valid microdata records match constraints" := by
  have hp := initPopulation_panic_of_empty c md g h
  exact ⟨hp, fun config t => by rw [syntheticPopulation, hp]⟩

/-- Witness for the amended C6 at the concrete empty-feasible-set area. -/
theorem no_feasible_records_panic_witness :
    initPopulation ⟨"d", [0], 2⟩ [⟨"b", [3]⟩] (constRng 1)
      = .panic "No valid microdata records match constraints" ∧
    ∀ (config : AnnealingConfig) (t : Rng),
      syntheticPopulation ⟨"d", [0], 2⟩ [⟨"b", [3]⟩] config (constRng 1) t
        = .error "No valid microdata records match constraints" :=
  no_feasible_records_panic ⟨"d", [0], 2⟩ [⟨"b", [3]⟩] (constRng 1)
    (by
      rw [validIndices]
      rw [show List.range ([⟨"b", [3]⟩] : List MicroData).length = [0] from rfl]
      simp [List.filter_cons, mdValues, isValidMicrodata])

/-- Both records of the pair pool are feasible for the `[5]` constraint. -/
lemma validIndices_pair : validIndices mdPair cArea.Values = [0, 1] := by
  rw [validIndices]
  rw [show List.range mdPair.length = [0, 1] from rfl]
  have h0 : isValidMicrodata (mdValues mdPair 0) cArea.Values := by
    simp [isValidMicrodata, mdValues, mdPair, cArea]
  have h1 : isValidMicrodata (mdValues mdPair 1) cArea.Values := by
    simp [isValidMicrodata, mdValues, mdPair, cArea]
  simp [List.filter_cons, h0, h1]

/-- With the all-zero global draw stream, the initial population of the
concrete area selects record 0 and totals `[1]`. -/
lemma initPop_pair :
    initPopulation cArea mdPair (constRng 0)
      = .ok [1] [0] ⟨fun _ => 0, fun _ => 0, 1, 0⟩ := by
  rw [initPopulation, validIndices_pair]
  rw [if_neg (by norm_num : ¬ (([0, 1] : List ℕ).length = 0))]
  rw [show cArea.Total = 0 + 1 from rfl]
  rw [initLoop]
  rw [initLoop]
  simp [Rng.intn, constRng, mdValues, mdPair, cArea]

/-- The initial fitness `KLDivergence [5] [1]` exceeds 4: the single term is
`(5+ε) · ln((5+ε)/(1+ε))` and the ratio exceeds `e`. -/
lemma kl_five_one_gt_four : 4 < KLDivergence [5] [1] := by
  have hq : (0:ℝ) < 1 + EPSILON := by norm_num [EPSILON]
  have hratio : (0:ℝ) < (5 + EPSILON) / (1 + EPSILON) :=
    div_pos (by norm_num [EPSILON]) hq
  have hgt : Real.exp 1 < (5 + EPSILON) / (1 + EPSILON) := by
    have h1 := Real.exp_one_lt_d9
    have h2 : (2.7182818286 : ℝ) < (5 + EPSILON) / (1 + EPSILON) := by
      rw [lt_div_iff₀ hq]
      norm_num [EPSILON]
    linarith
  have hlog : 1 < Real.log ((5 + EPSILON) / (1 + EPSILON)) :=
    (Real.lt_log_iff_exp_lt hratio).mpr hgt
  have h5 : (4:ℝ) < (5 + EPSILON) * 1 := by norm_num [EPSILON]
  have h6 : (5 + EPSILON) * 1 < (5 + EPSILON) * Real.log ((5 + EPSILON) / (1 + EPSILON)) :=
    mul_lt_mul_of_pos_left hlog (by norm_num [EPSILON])
  have h7 : (4:ℝ) < (5 + EPSILON) * Real.log ((5 + EPSILON) / (1 + EPSILON)) :=
    lt_trans h5 h6
  simpa [KLDivergence] using h7

/-- Scoring `[5]` against the unchanged aggregate `[1]` gives `sqrt 16 = 4`. -/
lemma eucl_five_one : Distance EUCLIDEAN [5] (updateTotals [1] [1] [1]) = 4 := by
  rw [Distance_euclidean]
  rw [show updateTotals [1] [1] [1] = [(1:ℝ)] by norm_num [updateTotals]]
  rw [EuclideanDistance, show euclidSumSq [5] [1] = 16 by norm_num [euclidSumSq]]
  rw [show (16:ℝ) = 4 ^ 2 by norm_num, Real.sqrt_sq (by norm_num : (0:ℝ) ≤ 4)]

/-- Scoring `[5]` against the aggregate updated to `[5]` gives `sqrt 0 = 0`. -/
lemma eucl_five_five : Distance EUCLIDEAN [5] (updateTotals [1] [1] [5]) = 0 := by
  rw [Distance_euclidean]
  rw [show updateTotals [1] [1] [5] = [(5:ℝ)] by norm_num [updateTotals]]
  rw [EuclideanDistance, show euclidSumSq [5] [5] = 0 by norm_num [euclidSumSq]]
  exact Real.sqrt_zero

/-- With the all-zero proposal stream, `replace` draws record 0 again and
accepts a proposal that leaves the aggregate at `[1]` with fitness 4. -/
lemma replaceA :
    ∃ r2, replace mdPair cArea [1] [0] (KLDivergence [5] [1]) 10 (constRng 0)
      = ⟨[1], [0], 4, true, r2⟩ := by
  have hvalid : isValidMicrodata (mdValues mdPair 0) cArea.Values := by
    simp [isValidMicrodata, mdValues, mdPair, cArea]
  have hfc' :
      findValidCandidate mdPair cArea.Values 100 (constRng 0)
        = (some 0, ⟨fun _ => 0, fun _ => 0, 1, 0⟩) := by
    rw [show (100:ℕ) = 99 + 1 from rfl, findValidCandidate]
    have hidx : ((constRng 0).intn mdPair.length).1 = 0 := by
      simp [Rng.intn, constRng, mdPair]
    rw [hidx, if_pos hvalid]
    simp [Rng.intn, constRng]
  rcases replace_result mdPair cArea [1] [0] (KLDivergence [5] [1]) 10 (constRng 0) with
    ⟨r1, hfc, heq⟩ | ⟨j, r1, hfc, ⟨r2, heq, hcond⟩ | ⟨r2, heq, h1, h2⟩⟩
  · rw [hfc] at hfc'
    exact Option.noConfusion (congrArg Prod.fst hfc')
  · rw [hfc] at hfc'
    simp only [Prod.mk.injEq, Option.some.injEq] at hfc'
    obtain ⟨hj, hr⟩ := hfc'
    subst hj; subst hr
    rcases hcond with hge | hexp
    · simp only [Rng.intn, List.length_cons, List.length_nil, zero_add, Nat.mod_one,
        List.getD_cons_zero] at hge
      rw [show mdValues mdPair 0 = [(1:ℝ)] from rfl,
        show cArea.Values = [(5:ℝ)] from rfl, eucl_five_one] at hge
      exact absurd (lt_of_lt_of_le kl_five_one_gt_four hge) (lt_irrefl _)
    · simp only [Rng.intn, Rng.float64] at hexp
      norm_num at hexp
      exact absurd hexp (not_lt.mpr (le_of_lt (Real.exp_pos _)))
  · rw [hfc] at hfc'
    simp only [Prod.mk.injEq, Option.some.injEq] at hfc'
    obtain ⟨hj, hr⟩ := hfc'
    subst hj; subst hr
    refine ⟨r2, ?_⟩
    rw [heq]
    simp only [Rng.intn, List.length_cons, List.length_nil, zero_add, Nat.mod_one,
      List.getD_cons_zero, List.set_cons_zero]
    rw [show mdValues mdPair 0 = [(1:ℝ)] from rfl,
      show cArea.Values = [(5:ℝ)] from rfl, eucl_five_one]
    norm_num [updateTotals]

/-- With the all-one proposal stream, `replace` draws record 1 and accepts
a proposal that moves the aggregate to `[5]` with fitness 0. -/
lemma replaceB :
    ∃ r2, replace mdPair cArea [1] [0] (KLDivergence [5] [1]) 10 (constRng 1)
      = ⟨[5], [1], 0, true, r2⟩ := by
  have hvalid : isValidMicrodata (mdValues mdPair 1) cArea.Values := by
    simp [isValidMicrodata, mdValues, mdPair, cArea]
  have hfc' :
      findValidCandidate mdPair cArea.Values 100 (constRng 1)
        = (some 1, ⟨fun _ => 1, fun _ => 0, 1, 0⟩) := by
    rw [show (100:ℕ) = 99 + 1 from rfl, findValidCandidate]
    have hidx : ((constRng 1).intn mdPair.length).1 = 1 := by
      simp [Rng.intn, constRng, mdPair]
    rw [hidx, if_pos hvalid]
    simp [Rng.intn, constRng]
  rcases replace_result mdPair cArea [1] [0] (KLDivergence [5] [1]) 10 (constRng 1) with
    ⟨r1, hfc, heq⟩ | ⟨j, r1, hfc, ⟨r2, heq, hcond⟩ | ⟨r2, heq, h1, h2⟩⟩
  · rw [hfc] at hfc'
    exact Option.noConfusion (congrArg Prod.fst hfc')
  · rw [hfc] at hfc'
    simp only [Prod.mk.injEq, Option.some.injEq] at hfc'
    obtain ⟨hj, hr⟩ := hfc'
    subst hj; subst hr
    rcases hcond with hge | hexp
    · simp only [Rng.intn, List.length_cons, List.length_nil, zero_add, Nat.mod_one,
        List.getD_cons_zero] at hge
      rw [show mdValues mdPair 0 = [(1:ℝ)] from rfl,
        show mdValues mdPair 1 = [(5:ℝ)] from rfl,
        show cArea.Values = [(5:ℝ)] from rfl, eucl_five_five] at hge
      have h04 : (0:ℝ) < 4 := by norm_num
      exact absurd (lt_of_lt_of_le (lt_trans h04 kl_five_one_gt_four) hge) (lt_irrefl _)
    · simp only [Rng.intn, Rng.float64] at hexp
      norm_num at hexp
      exact absurd hexp (not_lt.mpr (le_of_lt (Real.exp_pos _)))
  · rw [hfc] at hfc'
    simp only [Prod.mk.injEq, Option.some.injEq] at hfc'
    obtain ⟨hj, hr⟩ := hfc'
    subst hj; subst hr
    refine ⟨r2, ?_⟩
    rw [heq]
    simp only [Rng.intn, List.length_cons, List.length_nil, zero_add, Nat.mod_one,
      List.getD_cons_zero, List.set_cons_zero]
    rw [show mdValues mdPair 0 = [(1:ℝ)] from rfl,
      show mdValues mdPair 1 = [(5:ℝ)] from rfl,
      show cArea.Values = [(5:ℝ)] from rfl, eucl_five_five]
    norm_num [updateTotals]

/-- Full evaluation of the anneal for the all-zero wall-clock stream: the
best selection stays at record "a". -/
lemma runA :
    runIds (syntheticPopulation cArea mdPair cfg1 (constRng 0) (constRng 0)) = ["a"] := by
  obtain ⟨rA, hrep⟩ := replaceA
  simp only [syntheticPopulation, initPop_pair, runIds,
    show cArea.Values = [(5:ℝ)] from rfl,
    show cfg1.MaxIterations = 1 from rfl,
    show cfg1.InitialTemp = (10:ℝ) from rfl,
    show cfg1.MinTemp = (0:ℝ) from rfl,
    show cfg1.FitnessThreshold = (1/1000:ℝ) from rfl,
    show cfg1.WindowSize = 5 from rfl,
    show cfg1.CoolingRate = (1/2:ℝ) from rfl,
    show cfg1.Change = (5:ℤ) from rfl,
    annealLoop, hrep, updateChanges,
    gt_iff_lt, ge_iff_le,
    kl_five_one_gt_four,
    (by norm_num : (0:ℤ) < 5), (by norm_num : (0:ℝ) < 10),
    (by norm_num : ¬ ((4:ℝ) ≤ 1/1000)), (by norm_num : ¬ ((5:ℕ) ≤ 0)),
    if_true, if_false, ite_true, ite_false, and_self, and_true, true_and,
    List.map_cons, List.map_nil,
    show (mdPair.getD 0 ⟨"", []⟩).ID = "a" from rfl]

/-- The initial fitness is positive. -/
lemma kl_five_one_pos : (0:ℝ) < KLDivergence [5] [1] :=
  lt_trans (by norm_num) kl_five_one_gt_four

/-- Full evaluation of the anneal for the all-one wall-clock stream: the
proposal switches the selection to record "b" and the threshold break
fires. -/
lemma runB :
    runIds (syntheticPopulation cArea mdPair cfg1 (constRng 0) (constRng 1)) = ["b"] := by
  obtain ⟨rB, hrep⟩ := replaceB
  simp only [syntheticPopulation, initPop_pair, runIds,
    show cArea.Values = [(5:ℝ)] from rfl,
    show cfg1.MaxIterations = 1 from rfl,
    show cfg1.InitialTemp = (10:ℝ) from rfl,
    show cfg1.MinTemp = (0:ℝ) from rfl,
    show cfg1.FitnessThreshold = (1/1000:ℝ) from rfl,
    show cfg1.WindowSize = 5 from rfl,
    show cfg1.CoolingRate = (1/2:ℝ) from rfl,
    show cfg1.Change = (5:ℤ) from rfl,
    annealLoop, hrep, updateChanges,
    gt_iff_lt, ge_iff_le,
    kl_five_one_pos,
    (by norm_num : (0:ℤ) < 5), (by norm_num : (0:ℝ) < 10),
    (by norm_num : (0:ℝ) ≤ 1/1000), (by norm_num : ¬ ((5:ℕ) ≤ 0)),
    if_true, if_false, ite_true, ite_false, and_self, and_true, true_and,
    List.map_cons, List.map_nil,
    show (mdPair.getD 1 ⟨"", []⟩).ID = "b" from rfl]

/-- C7 (code bug): with `UseRandomSeed = "yes"`, a fixed `RandomSeed` and one
worker, two runs on identical inputs still differ.  The anneal's proposal
draws do not come from the seeded master generator: `syntheticPopulation`
builds its generator from `time.Now().UnixNano()`
(src/simulatedAnnealing.go line 327) and `initPopulation` draws from the
package-global `rand` (line 284).  Here the same inputs and the same global
stream, combined with two different wall-clock streams (modelling two
different start times), produce different assignments (`["a"]` vs
`["b"]`). -/
theorem wall_clock_entropy_defeats_seed :
    runIds (syntheticPopulation cArea mdPair cfg1 (constRng 0) (constRng 0)) = ["a"] ∧
    runIds (syntheticPopulation cArea mdPair cfg1 (constRng 0) (constRng 1)) = ["b"] ∧
    runIds (syntheticPopulation cArea mdPair cfg1 (constRng 0) (constRng 0))
      ≠ runIds (syntheticPopulation cArea mdPair cfg1 (constRng 0) (constRng 1)) := by
  refine ⟨runA, runB, ?_⟩
  rw [runA, runB]
  decide

/-- Witness for the amended C3 at a concrete infeasible pool. -/
theorem skip_decrements_change_budget_witness :
    (replace [⟨"b", [2]⟩] ⟨"d", [0], 1⟩ [2] [0] 9 1 (constRng 0)).flag = false ∧
    (replace [⟨"b", [2]⟩] ⟨"d", [0], 1⟩ [2] [0] 9 1 (constRng 0)).totals = [2] ∧
    (replace [⟨"b", [2]⟩] ⟨"d", [0], 1⟩ [2] [0] 9 1 (constRng 0)).sel = [0] ∧
    (replace [⟨"b", [2]⟩] ⟨"d", [0], 1⟩ [2] [0] 9 1 (constRng 0)).fitness = 9 ∧
    updateChanges 5 ((replace [⟨"b", [2]⟩] ⟨"d", [0], 1⟩ [2] [0] 9 1 (constRng 0)).flag)
      = 5 - 1 :=
  skip_decrements_change_budget [⟨"b", [2]⟩] ⟨"d", [0], 1⟩ [2] [0] 9 1 (constRng 0) 5
    (by norm_num)
    (by
      intro j hj
      have : j = 0 := Nat.lt_one_iff.mp (by simpa using hj)
      subst this
      simp [isValidMicrodata, mdValues])

end

end GoSynthPop
